import Mathlib

/-!
Shallow embedding of `ncov_watch/ncov_watch.py`: the variant normalization
and matching engine of ncov-watch.  Python values that can be either an
`int` or a `str` (the `position` field of a `Variant`) are modelled by the
sum type `PyVal`; Python's `str()` is `pyStr`.  Fallible parsing is
modelled with `Except` (a `sys.exit` / uncaught exception in `load_vcf`)
and with an explicit fault-swallowing loop (`load_ivar_variants`).
-/

/-- A Python value that is either an `int` or a `str`; `Variant.position`
holds an `int` when produced by `load_vcf` (pysam's `record.pos`) and a
`str` when produced by `load_ivar_variants` (the raw `POS` column). -/
inductive PyVal where
  | int : Int → PyVal
  | str : String → PyVal
deriving DecidableEq, Repr

/-- Python's `str()` on a `PyVal`. -/
def pyStr : PyVal → String
  | .int n => toString n
  | .str s => s

/-- The `Variant` class (`ncov_watch.py`, lines 11-20): contig, position,
reference allele, alternate allele, and an optional name (initialised to
`None` by `__init__`). -/
structure Variant where
  contig : String
  position : PyVal
  reference : String
  alt : String
  name : Option String := none
deriving DecidableEq, Repr

/-- `Variant.key` (line 19-20): `",".join([str(x) for x in [contig,
position, reference, alt]])`.  `str` on the three string fields is the
identity; on `position` it is `pyStr`. -/
def Variant.key (v : Variant) : String :=
  String.intercalate "," [v.contig, pyStr v.position, v.reference, v.alt]

/-- One record of a standard-format (VCF) file as pysam presents it to
`load_vcf`: chromosome, 1-based integer position, reference allele, the
list of alternate alleles, and the optional `Name` INFO field. -/
structure VcfRecord where
  chrom : String
  pos : Int
  ref : String
  alts : List String
  nameInfo : Option String := none
deriving DecidableEq, Repr

/-- `load_vcf` (lines 23-36).  Records are processed in order; a record
with more than one alternate allele hits `sys.exit(1)` (modelled as
`Except.error "Multi-allelic VCF not supported"`); a record with no
alternate allele would raise on `record.alts[0]` (modelled as an
`IndexError` error).  On success each record yields one `Variant` whose
`name` is the `Name` INFO field when present. -/
def load_vcf : List VcfRecord → Except String (List Variant)
  | [] => .ok []
  | r :: rs =>
    if 1 < r.alts.length then
      .error "Multi-allelic VCF not supported"
    else
      match r.alts with
      | [a] =>
        (load_vcf rs).map (fun vs =>
          { contig := r.chrom, position := .int r.pos, reference := r.ref,
            alt := a, name := r.nameInfo } :: vs)
      | _ => .error "IndexError"

/-- One row of a tabular (ivar `variants.tsv`) file, as `csv.DictReader`
presents it: the `REGION`, `POS`, `REF` and `ALT` columns. -/
structure IvarRecord where
  region : String
  pos : String
  ref : String
  alt : String
deriving DecidableEq, Repr

/-- The body of the `for record in reader` loop of `load_ivar_variants`
(lines 46-54).  `none` models a Python exception inside the loop body:
`alt[0]` on an empty `ALT` raises `IndexError`, and in the deletion branch
`ref[0]` raises when the extended reference is empty.  Otherwise:
if `ALT` starts with `-`, the remainder of `ALT` is appended to `REF` and
the new `ALT` is the first character of the extended `REF`; if `ALT`
starts with `+`, the new `ALT` is `REF` plus the remainder of `ALT`;
otherwise both are used as given.  `POS` is kept as the raw string. -/
def processIvarRecord (r : IvarRecord) : Option Variant :=
  match r.alt.toList with
  | [] => none
  | c :: rest =>
    if c = '-' then
      match (r.ref ++ String.mk rest).toList with
      | [] => none
      | r0 :: _ =>
        some { contig := r.region, position := .str r.pos,
               reference := r.ref ++ String.mk rest, alt := String.mk [r0] }
    else if c = '+' then
      some { contig := r.region, position := .str r.pos,
             reference := r.ref, alt := r.ref ++ String.mk rest }
    else
      some { contig := r.region, position := .str r.pos,
             reference := r.ref, alt := r.alt }

/-- The source seen by `load_ivar_variants`: either the `open` call raises
(file unreadable) or it yields a list of rows. -/
inductive IvarSource where
  | unreadable : IvarSource
  | rows : List IvarRecord → IvarSource

/-- The loop of `load_ivar_variants`: variants are appended to the
accumulating list one row at a time; the first row whose processing
raises stops the loop, and the `except: pass` returns the variants
accumulated so far. -/
def ivarLoop : List IvarRecord → List Variant
  | [] => []
  | r :: rest =>
    match processIvarRecord r with
    | some v => v :: ivarLoop rest
    | none => []

/-- `load_ivar_variants` (lines 40-57): the whole body is wrapped in
`try: ... except: pass`, so an unreadable file yields `[]` and a fault in
the middle of the loop yields the variants accumulated before it. -/
def load_ivar_variants : IvarSource → List Variant
  | .unreadable => []
  | .rows rs => ivarLoop rs

/-- A Python dict keyed by strings, as an insertion-ordered association
list: inserting an existing key updates its value in place, a new key is
appended at the end.  This models `watch_dict` (line 99). -/
def dictInsert (d : List (String × Option String)) (k : String) (v : Option String) :
    List (String × Option String) :=
  if d.any (fun p => p.1 = k) then
    d.map (fun p => if p.1 = k then (k, v) else p)
  else
    d ++ [(k, v)]

/-- Dict lookup: the value at the first (hence only) entry with the key. -/
def dictLookup (d : List (String × Option String)) (k : String) : Option (Option String) :=
  (d.find? (fun p => p.1 = k)).map (·.2)

/-- The dict comprehension `{v.key(): v.name for v in watch_variants}`
(line 99): entries are inserted in list order, so a later variant with the
same key overwrites an earlier one. -/
def buildWatchDict (vs : List Variant) : List (String × Option String) :=
  vs.foldl (fun d v => dictInsert d v.key v.name) []

/-- The per-variant body of the reporting loop (lines 112-117): if the
variant's key is in `watch_dict`, a row
`[sample, name, contig, str(position), reference, alt]` is written, with
`name` replaced by `"not annotated"` when the stored name is `None`;
otherwise nothing is written. -/
def emitRow (watch : List (String × Option String)) (sample : String) (v : Variant) :
    Option (List String) :=
  match dictLookup watch v.key with
  | none => none
  | some nm =>
    some [sample, nm.getD "not annotated", v.contig, pyStr v.position, v.reference, v.alt]

/-- The reporting loop over all variants of one input source. -/
def matchVariants (watch : List (String × Option String)) (sample : String)
    (vs : List Variant) : List (List String) :=
  vs.filterMap (emitRow watch sample)

/-- Processing of one standard-format source in `main`: `load_vcf` is not
wrapped in any handler, so its error (a `sys.exit` or uncaught exception)
aborts the run and no row of this source is written. -/
def runVcfSource (watch : List (String × Option String)) (sample : String)
    (recs : List VcfRecord) : Except String (List (List String)) :=
  (load_vcf recs).map (matchVariants watch sample)

/-- Python's `str.find` on lists of characters: the least index at which
`pat` occurs as a contiguous sublist, or `none`. -/
def findSub (pat : List Char) : List Char → Option Nat
  | [] => if pat.isPrefixOf ([] : List Char) then some 0 else none
  | c :: t => if pat.isPrefixOf (c :: t) then some 0 else (findSub pat t).map (· + 1)

/-- Python's `f.find(pat)`: the index of the first occurrence, `-1` when
there is none. -/
def pyFind (f pat : String) : Int :=
  match findSub pat.toList f.toList with
  | some n => (n : Int)
  | none => -1

/-- Which parser a source identifier is dispatched to. -/
inductive SourceKind where
  | ivar : SourceKind
  | vcf : SourceKind
deriving DecidableEq, Repr

/-- The dispatch in `main` (lines 107-110): `if f.find("variants.tsv") >= 0`
the tabular parser `load_ivar_variants` is used, otherwise `load_vcf`. -/
def dispatchFor (f : String) : SourceKind :=
  if 0 ≤ pyFind f "variants.tsv" then .ivar else .vcf

/-- A position string is "consistently number-formatted" in the sense of
the spec when it has no leading zero and no decimal point. -/
def numWellFormatted (s : String) : Bool :=
  !(decide (1 < s.toList.length) && (s.toList.head? == some '0')) && !(s.toList.contains '.')

lemma string_ne_empty_iff (s : String) : s ≠ "" ↔ s.toList ≠ [] := by
  rw [not_iff_not]
  constructor
  · intro h; rw [h]; rfl
  · intro h; exact String.ext_iff.mpr h

/-- C8: the canonical key is a pure function of the four fields: two
Variants agreeing on contig, position, reference and alt have identical
keys, independently of their names and of which parser produced them. -/
theorem key_deterministic (v w : Variant) (h1 : v.contig = w.contig)
    (h2 : v.position = w.position) (h3 : v.reference = w.reference)
    (h4 : v.alt = w.alt) : v.key = w.key := by
  unfold Variant.key
  rw [h1, h2, h3, h4]

/-- Witness for C8 at a concrete pair of Variants that differ only in
their (key-irrelevant) names. -/
theorem key_deterministic_witness :
    Variant.key ⟨"chr1", .int 100, "A", "G", some "S1"⟩ =
    Variant.key ⟨"chr1", .str "100", "A", "G", none⟩ := by
  have h := key_deterministic ⟨"chr1", .int 100, "A", "G", some "S1"⟩
    ⟨"chr1", .int 100, "A", "G", none⟩ rfl rfl rfl rfl
  rw [h]; decide

/-- C1: on a tabular row whose ALT begins with the deletion marker, the
remainder of ALT is appended to REF and the new ALT is the first base of
the extended reference; and the concrete row
(chr1, 100, A, -TG) yields the same canonical key as the standard-format
record (chr1, 100, ATG, A). -/
theorem tabular_deletion_normalization :
    (∀ (r : IvarRecord) (rest : List Char) (r0 : Char) (t : List Char),
        r.alt.toList = '-' :: rest →
        (r.ref ++ String.mk rest).toList = r0 :: t →
        processIvarRecord r =
          some ⟨r.region, .str r.pos, r.ref ++ String.mk rest, String.mk [r0], none⟩) ∧
    (load_ivar_variants (.rows [⟨"chr1", "100", "A", "-TG"⟩])).map Variant.key =
      ["chr1,100,ATG,A"] ∧
    (load_vcf [⟨"chr1", 100, "ATG", ["A"], none⟩]).map (fun vs => vs.map Variant.key) =
      Except.ok ["chr1,100,ATG,A"] := by
  refine ⟨?_, by decide, rfl⟩
  intro r rest r0 t h h2
  have h' : r.alt.data = '-' :: rest := h
  have h2' : r.ref.data ++ rest = r0 :: t := by
    rw [← String.data_append]; exact h2
  simp [processIvarRecord, h', h2']

/-- Witness for C1 at the concrete row (chr1, 100, A, -TG). -/
theorem tabular_deletion_normalization_witness :
    ((⟨"chr1", "100", "A", "-TG"⟩ : IvarRecord).alt.toList = '-' :: ['T', 'G'] ∧
      ((⟨"chr1", "100", "A", "-TG"⟩ : IvarRecord).ref ++ String.mk ['T', 'G']).toList =
        'A' :: ['T', 'G']) ∧
    processIvarRecord ⟨"chr1", "100", "A", "-TG"⟩ =
      some ⟨"chr1", .str "100", "A" ++ String.mk ['T', 'G'], String.mk ['A'], none⟩ :=
  ⟨⟨by decide, by decide⟩,
    tabular_deletion_normalization.1 ⟨"chr1", "100", "A", "-TG"⟩ ['T', 'G'] 'A' ['T', 'G']
      (by decide) (by decide)⟩

/-- C2: on a tabular row whose ALT begins with the insertion marker, the
new ALT is REF concatenated with the remainder of ALT and REF is left
unchanged; and the concrete row (chr1, 100, A, +GG) yields the same
canonical key as the standard-format record (chr1, 100, A, AGG). -/
theorem tabular_insertion_normalization :
    (∀ (r : IvarRecord) (rest : List Char),
        r.alt.toList = '+' :: rest →
        processIvarRecord r =
          some ⟨r.region, .str r.pos, r.ref, r.ref ++ String.mk rest, none⟩) ∧
    (load_ivar_variants (.rows [⟨"chr1", "100", "A", "+GG"⟩])).map Variant.key =
      ["chr1,100,A,AGG"] ∧
    (load_vcf [⟨"chr1", 100, "A", ["AGG"], none⟩]).map (fun vs => vs.map Variant.key) =
      Except.ok ["chr1,100,A,AGG"] := by
  refine ⟨?_, by decide, rfl⟩
  intro r rest h
  have h' : r.alt.data = '+' :: rest := h
  simp [processIvarRecord, h']

/-- Witness for C2 at the concrete row (chr1, 100, A, +GG). -/
theorem tabular_insertion_normalization_witness :
    (⟨"chr1", "100", "A", "+GG"⟩ : IvarRecord).alt.toList = '+' :: ['G', 'G'] ∧
    processIvarRecord ⟨"chr1", "100", "A", "+GG"⟩ =
      some ⟨"chr1", .str "100", "A", "A" ++ String.mk ['G', 'G'], none⟩ :=
  ⟨by decide,
    tabular_insertion_normalization.1 ⟨"chr1", "100", "A", "+GG"⟩ ['G', 'G'] (by decide)⟩

/-- C3 counterexample: a source whose second row faults (empty ALT raises
`IndexError` on `alt[0]`) still returns the Variant parsed from the first
row — the `except: pass` returns the accumulated list, not an empty one. -/
theorem tabular_fault_counterexample :
    processIvarRecord ⟨"chr1", "200", "C", ""⟩ = none ∧
    load_ivar_variants (.rows [⟨"chr1", "100", "A", "G"⟩, ⟨"chr1", "200", "C", ""⟩]) =
      [⟨"chr1", .str "100", "A", "G", none⟩] := by
  exact ⟨rfl, rfl⟩

/-- C3 amended: an unreadable tabular source yields no Variants, and a
faulting source yields exactly the Variants of the longest fault-free
prefix of its rows (the fault itself is swallowed, never surfaced). -/
theorem tabular_fault_prefix :
    load_ivar_variants .unreadable = [] ∧
    ∀ rs : List IvarRecord,
      load_ivar_variants (.rows rs) =
        (rs.takeWhile (fun r => (processIvarRecord r).isSome)).filterMap processIvarRecord := by
  refine ⟨rfl, ?_⟩
  intro rs
  show ivarLoop rs = _
  induction rs with
  | nil => rfl
  | cons r rest ih =>
    cases h : processIvarRecord r with
    | none => simp [ivarLoop, h, List.takeWhile_cons]
    | some v => simp [ivarLoop, h, List.takeWhile_cons, List.filterMap_cons, ih]

/-- C4: a standard-format source containing a multi-allelic record makes
`load_vcf` fail (modelling `sys.exit(1)` / an uncaught exception), so no
Variant list is returned and the per-source report produces no rows. -/
theorem vcf_multiallelic_fatal (recs : List VcfRecord)
    (h : ∃ r ∈ recs, 1 < r.alts.length) :
    ∃ e, load_vcf recs = .error e ∧
      ∀ (watch : List (String × Option String)) (sample : String),
        runVcfSource watch sample recs = .error e := by
  suffices hload : ∃ e, load_vcf recs = .error e by
    obtain ⟨e, he⟩ := hload
    exact ⟨e, he, fun watch sample => by simp [runVcfSource, he, Except.map]⟩
  induction recs with
  | nil => simp at h
  | cons r rs ih =>
    by_cases hr : 1 < r.alts.length
    · exact ⟨"Multi-allelic VCF not supported", by simp [load_vcf, hr]⟩
    · have h' : ∃ x ∈ rs, 1 < x.alts.length := by
        rcases h with ⟨x, hx, hlen⟩
        rcases List.mem_cons.mp hx with rfl | hmem
        · exact absurd hlen hr
        · exact ⟨x, hmem, hlen⟩
      obtain ⟨e, he⟩ := ih h'
      cases halts : r.alts with
      | nil => exact ⟨"IndexError", by simp [load_vcf, hr, halts]⟩
      | cons a as =>
        cases as with
        | nil => exact ⟨e, by simp [load_vcf, hr, halts, he, Except.map]⟩
        | cons b bs => exact absurd (by simp [halts]) hr

/-- Witness for C4: a single record with two alternate alleles. -/
theorem vcf_multiallelic_fatal_witness :
    (∃ r ∈ [(⟨"chr1", 100, "A", ["G", "T"], none⟩ : VcfRecord)], 1 < r.alts.length) ∧
    ∃ e, load_vcf [(⟨"chr1", 100, "A", ["G", "T"], none⟩ : VcfRecord)] = .error e ∧
      ∀ (watch : List (String × Option String)) (sample : String),
        runVcfSource watch sample [(⟨"chr1", 100, "A", ["G", "T"], none⟩ : VcfRecord)] =
          .error e :=
  ⟨⟨⟨"chr1", 100, "A", ["G", "T"], none⟩, by simp, by simp⟩,
    vcf_multiallelic_fatal _ ⟨⟨"chr1", 100, "A", ["G", "T"], none⟩, by simp, by simp⟩⟩

lemma processIvar_empty_alt (r : IvarRecord) (h : r.alt.toList = []) :
    processIvarRecord r = none := by
  have h' : r.alt.data = [] := h
  simp [processIvarRecord, h']

lemma processIvar_del (r : IvarRecord) (rest : List Char) (r0 : Char) (t : List Char)
    (h : r.alt.toList = '-' :: rest) (h2 : (r.ref ++ String.mk rest).toList = r0 :: t) :
    processIvarRecord r =
      some ⟨r.region, .str r.pos, r.ref ++ String.mk rest, String.mk [r0], none⟩ := by
  have h' : r.alt.data = '-' :: rest := h
  have h2' : r.ref.data ++ rest = r0 :: t := by
    rw [← String.data_append]; exact h2
  simp [processIvarRecord, h', h2']

lemma processIvar_del_fault (r : IvarRecord) (rest : List Char)
    (h : r.alt.toList = '-' :: rest) (h2 : (r.ref ++ String.mk rest).toList = []) :
    processIvarRecord r = none := by
  have h' : r.alt.data = '-' :: rest := h
  have h2' : r.ref.data ++ rest = [] := by
    rw [← String.data_append]; exact h2
  simp [processIvarRecord, h', h2']

lemma processIvar_ins (r : IvarRecord) (rest : List Char)
    (h : r.alt.toList = '+' :: rest) :
    processIvarRecord r = some ⟨r.region, .str r.pos, r.ref, r.ref ++ String.mk rest, none⟩ := by
  have h' : r.alt.data = '+' :: rest := h
  simp [processIvarRecord, h']

lemma processIvar_sub (r : IvarRecord) (c : Char) (rest : List Char)
    (h : r.alt.toList = c :: rest) (hc : c ≠ '-') (hc2 : c ≠ '+') :
    processIvarRecord r = some ⟨r.region, .str r.pos, r.ref, r.alt, none⟩ := by
  have h' : r.alt.data = c :: rest := h
  simp [processIvarRecord, h', hc, hc2]

lemma string_append_toList (s t : String) : (s ++ t).toList = s.toList ++ t.toList :=
  String.data_append s t

/-- C5 counterexample: a tabular substitution row with an empty REF column
is accepted as-is, so the parser constructs a Variant whose reference
allele is the empty string. -/
theorem nonempty_alleles_counterexample :
    load_ivar_variants (.rows [⟨"chr1", "100", "", "G"⟩]) =
      [⟨"chr1", .str "100", "", "G", none⟩] ∧
    (⟨"chr1", .str "100", "", "G", none⟩ : Variant).reference = "" := by
  exact ⟨rfl, rfl⟩

/-- C5 amended: a Variant built by the tabular parser from a row with a
non-empty REF column has non-empty reference and alt; a Variant built by
the standard parser has non-empty reference and alt whenever the source
records carry non-empty REF and ALT fields (the parser copies them
verbatim and checks nothing). -/
theorem nonempty_alleles :
    (∀ (r : IvarRecord) (v : Variant), r.ref ≠ "" → processIvarRecord r = some v →
        v.reference ≠ "" ∧ v.alt ≠ "") ∧
    (∀ (recs : List VcfRecord) (vs : List Variant), load_vcf recs = .ok vs →
        (∀ rec ∈ recs, rec.ref ≠ "" ∧ ∀ a ∈ rec.alts, a ≠ "") →
        ∀ v ∈ vs, v.reference ≠ "" ∧ v.alt ≠ "") := by
  constructor
  · intro r v href h
    rcases halt : r.alt.toList with _ | ⟨c, rest⟩
    · rw [processIvar_empty_alt r halt] at h; cases h
    · by_cases hc : c = '-'
      · subst hc
        rcases h3 : (r.ref ++ String.mk rest).toList with _ | ⟨r0, t⟩
        · rw [processIvar_del_fault r rest halt h3] at h; cases h
        · rw [processIvar_del r rest r0 t halt h3] at h
          injection h with h; subst h
          constructor
          · rw [string_ne_empty_iff, h3]; simp
          · rw [string_ne_empty_iff]; simp [String.toList]
      · by_cases hc2 : c = '+'
        · subst hc2
          rw [processIvar_ins r rest halt] at h
          injection h with h; subst h
          refine ⟨href, ?_⟩
          rw [string_ne_empty_iff, string_append_toList]
          intro hx
          exact (string_ne_empty_iff r.ref).mp href (List.append_eq_nil.mp hx).1
        · rw [processIvar_sub r c rest halt hc hc2] at h
          injection h with h; subst h
          refine ⟨href, ?_⟩
          rw [string_ne_empty_iff, halt]
          simp
  · intro recs
    induction recs with
    | nil =>
      intro vs hok hgood v hv
      simp only [load_vcf] at hok
      cases hok
      cases hv
    | cons r rs ih =>
      intro vs hok hgood v hv
      simp only [load_vcf] at hok
      by_cases hr : 1 < r.alts.length
      · rw [if_pos hr] at hok; cases hok
      · rw [if_neg hr] at hok
        cases halts : r.alts with
        | nil => rw [halts] at hok; cases hok
        | cons a as =>
          cases as with
          | nil =>
            rw [halts] at hok
            cases hrec : load_vcf rs with
            | error e => rw [hrec] at hok; cases hok
            | ok vs' =>
              rw [hrec] at hok
              simp only [Except.map, Except.ok.injEq] at hok
              subst hok
              rcases List.mem_cons.mp hv with rfl | hmem
              · refine ⟨(hgood r (List.mem_cons_self r rs)).1, ?_⟩
                exact (hgood r (List.mem_cons_self r rs)).2 a (by rw [halts]; simp)
              · exact ih vs' hrec
                  (fun rec hm => hgood rec (List.mem_cons_of_mem r hm)) v hmem
          | cons b bs =>
            exact absurd (by rw [halts]; simp) hr

/-- Witness for C5 at concrete inputs for both parsers. -/
theorem nonempty_alleles_witness :
    ((⟨"chr1", "100", "A", "G"⟩ : IvarRecord).ref ≠ "" ∧
      processIvarRecord ⟨"chr1", "100", "A", "G"⟩ =
        some ⟨"chr1", .str "100", "A", "G", none⟩ ∧
      (⟨"chr1", .str "100", "A", "G", none⟩ : Variant).reference ≠ "" ∧
      (⟨"chr1", .str "100", "A", "G", none⟩ : Variant).alt ≠ "") ∧
    (load_vcf [⟨"chr1", 100, "ATG", ["A"], none⟩] =
        .ok [⟨"chr1", .int 100, "ATG", "A", none⟩] ∧
      (⟨"chr1", .int 100, "ATG", "A", none⟩ : Variant).reference ≠ "" ∧
      (⟨"chr1", .int 100, "ATG", "A", none⟩ : Variant).alt ≠ "") :=
  ⟨⟨by decide, by decide,
      nonempty_alleles.1 ⟨"chr1", "100", "A", "G"⟩ ⟨"chr1", .str "100", "A", "G", none⟩
        (by decide) (by decide)⟩,
    ⟨rfl,
      nonempty_alleles.2 [⟨"chr1", 100, "ATG", ["A"], none⟩] [⟨"chr1", .int 100, "ATG", "A", none⟩]
        rfl (by decide) ⟨"chr1", .int 100, "ATG", "A", none⟩ (List.mem_singleton.mpr rfl)⟩⟩

/-- C6 counterexample: the tabular parser keeps the raw POS column string,
so a row with POS written as "0100" produces a key whose position field
has a leading zero — the claimed consistent number formatting fails. -/
theorem key_format_counterexample :
    load_ivar_variants (.rows [⟨"chr1", "0100", "A", "G"⟩]) =
      [⟨"chr1", .str "0100", "A", "G", none⟩] ∧
    Variant.key ⟨"chr1", .str "0100", "A", "G", none⟩ = "chr1,0100,A,G" ∧
    numWellFormatted (pyStr (PyVal.str "0100")) = false ∧
    Variant.key ⟨"chr1", .str "0100", "A", "G", none⟩ ≠
      Variant.key ⟨"chr1", .int 100, "A", "G", none⟩ := by
  refine ⟨rfl, rfl, rfl, ?_⟩
  decide

/-- C6 amended: the key is the four fields joined in order by the fixed
delimiter ",", the position rendered by Python `str()`; the standard
parser always stores the record's integer position (so its rendering has
no leading zeros or decimal point), while the tabular parser stores the
raw POS column string, which enters the key verbatim. -/
theorem key_format :
    (∀ v : Variant,
        v.key = String.intercalate "," [v.contig, pyStr v.position, v.reference, v.alt]) ∧
    (∀ (recs : List VcfRecord) (vs : List Variant), load_vcf recs = .ok vs →
        ∀ v ∈ vs, ∃ r ∈ recs, v.position = PyVal.int r.pos) ∧
    (∀ (r : IvarRecord) (v : Variant), processIvarRecord r = some v →
        v.position = PyVal.str r.pos) := by
  refine ⟨fun v => rfl, ?_, ?_⟩
  · intro recs
    induction recs with
    | nil =>
      intro vs hok v hv
      simp only [load_vcf] at hok
      cases hok
      cases hv
    | cons r rs ih =>
      intro vs hok v hv
      simp only [load_vcf] at hok
      by_cases hr : 1 < r.alts.length
      · rw [if_pos hr] at hok; cases hok
      · rw [if_neg hr] at hok
        cases halts : r.alts with
        | nil => rw [halts] at hok; cases hok
        | cons a as =>
          cases as with
          | nil =>
            rw [halts] at hok
            cases hrec : load_vcf rs with
            | error e => rw [hrec] at hok; cases hok
            | ok vs' =>
              rw [hrec] at hok
              simp only [Except.map, Except.ok.injEq] at hok
              subst hok
              rcases List.mem_cons.mp hv with rfl | hmem
              · exact ⟨r, List.mem_cons_self r rs, rfl⟩
              · obtain ⟨r', hr', hp⟩ := ih vs' hrec v hmem
                exact ⟨r', List.mem_cons_of_mem r hr', hp⟩
          | cons b bs =>
            exact absurd (by rw [halts]; simp) hr
  · intro r v h
    rcases halt : r.alt.toList with _ | ⟨c, rest⟩
    · rw [processIvar_empty_alt r halt] at h; cases h
    · by_cases hc : c = '-'
      · subst hc
        rcases h3 : (r.ref ++ String.mk rest).toList with _ | ⟨r0, t⟩
        · rw [processIvar_del_fault r rest halt h3] at h; cases h
        · rw [processIvar_del r rest r0 t halt h3] at h
          injection h with h; subst h; rfl
      · by_cases hc2 : c = '+'
        · subst hc2
          rw [processIvar_ins r rest halt] at h
          injection h with h; subst h; rfl
        · rw [processIvar_sub r c rest halt hc hc2] at h
          injection h with h; subst h; rfl

/-- Witness for C6 at a concrete record of each parser. -/
theorem key_format_witness :
    (load_vcf [⟨"chr1", 100, "A", ["G"], none⟩] =
        .ok [⟨"chr1", .int 100, "A", "G", none⟩] ∧
      ∃ r ∈ [(⟨"chr1", 100, "A", ["G"], none⟩ : VcfRecord)],
        (⟨"chr1", .int 100, "A", "G", none⟩ : Variant).position = PyVal.int r.pos) ∧
    (processIvarRecord ⟨"chr1", "100", "A", "G"⟩ =
        some ⟨"chr1", .str "100", "A", "G", none⟩ ∧
      (⟨"chr1", .str "100", "A", "G", none⟩ : Variant).position =
        PyVal.str (⟨"chr1", "100", "A", "G"⟩ : IvarRecord).pos) :=
  ⟨⟨rfl,
      key_format.2.1 [⟨"chr1", 100, "A", ["G"], none⟩] [⟨"chr1", .int 100, "A", "G", none⟩]
        rfl ⟨"chr1", .int 100, "A", "G", none⟩ (List.mem_singleton.mpr rfl)⟩,
    ⟨by decide,
      key_format.2.2 ⟨"chr1", "100", "A", "G"⟩ ⟨"chr1", .str "100", "A", "G", none⟩
        (by decide)⟩⟩

/-- C7: when a matched variant's watchlist entry stores no name (`None`),
the emitted row carries the literal "not annotated" in the mutation
column (index 1); when a name is stored, that name is emitted. -/
theorem report_row_name (watch : List (String × Option String)) (sample : String)
    (v : Variant) :
    (dictLookup watch v.key = some none →
      emitRow watch sample v =
        some [sample, "not annotated", v.contig, pyStr v.position, v.reference, v.alt]) ∧
    (∀ nm : String, dictLookup watch v.key = some (some nm) →
      emitRow watch sample v =
        some [sample, nm, v.contig, pyStr v.position, v.reference, v.alt]) := by
  constructor
  · intro h
    simp [emitRow, h]
  · intro nm h
    simp [emitRow, h]

/-- Witness for C7: a one-entry unnamed watchlist matching a concrete
variant yields the "not annotated" row, and a named one yields the name. -/
theorem report_row_name_witness :
    (dictLookup [("chr1,100,A,G", none)] (Variant.key ⟨"chr1", .int 100, "A", "G", none⟩) =
        some none ∧
      emitRow [("chr1,100,A,G", none)] "s1" ⟨"chr1", .int 100, "A", "G", none⟩ =
        some ["s1", "not annotated", "chr1", "100", "A", "G"]) ∧
    (dictLookup [("chr1,100,A,G", some "S:N501Y")]
        (Variant.key ⟨"chr1", .int 100, "A", "G", none⟩) = some (some "S:N501Y") ∧
      emitRow [("chr1,100,A,G", some "S:N501Y")] "s1" ⟨"chr1", .int 100, "A", "G", none⟩ =
        some ["s1", "S:N501Y", "chr1", "100", "A", "G"]) :=
  ⟨⟨by decide,
      (report_row_name [("chr1,100,A,G", none)] "s1" ⟨"chr1", .int 100, "A", "G", none⟩).1
        (by decide)⟩,
    ⟨by decide,
      (report_row_name [("chr1,100,A,G", some "S:N501Y")] "s1"
          ⟨"chr1", .int 100, "A", "G", none⟩).2 "S:N501Y" (by decide)⟩⟩

lemma find_map_ne (d : List (String × Option String)) (k k' : String) (v' : Option String)
    (hk : k ≠ k') :
    (d.map (fun p => if p.1 = k' then (k', v') else p)).find? (fun p => p.1 = k) =
      d.find? (fun p => p.1 = k) := by
  induction d with
  | nil => rfl
  | cons q d ih =>
    by_cases hq : q.1 = k'
    · rw [List.map_cons, if_pos hq, List.find?_cons_of_neg _ (by simpa using Ne.symm hk),
        List.find?_cons_of_neg _ (by simpa [hq] using Ne.symm hk), ih]
    · rw [List.map_cons, if_neg hq]
      by_cases hqk : q.1 = k
      · rw [List.find?_cons_of_pos _ (by simp [hqk]), List.find?_cons_of_pos _ (by simp [hqk])]
      · rw [List.find?_cons_of_neg _ (by simp [hqk]), List.find?_cons_of_neg _ (by simp [hqk]), ih]

lemma find_map_eq (d : List (String × Option String)) (k' : String) (v' : Option String)
    (hmem : d.any (fun p => p.1 = k') = true) :
    (d.map (fun p => if p.1 = k' then (k', v') else p)).find? (fun p => p.1 = k') =
      some (k', v') := by
  induction d with
  | nil => simp at hmem
  | cons q d ih =>
    by_cases hq : q.1 = k'
    · rw [List.map_cons, if_pos hq, List.find?_cons_of_pos _ (by simp)]
    · have hmem' : d.any (fun p => p.1 = k') = true := by
        rcases List.any_eq_true.mp hmem with ⟨x, hx, hpx⟩
        rcases List.mem_cons.mp hx with rfl | hxd
        · exact absurd (by simpa using hpx) hq
        · exact List.any_eq_true.mpr ⟨x, hxd, hpx⟩
      rw [List.map_cons, if_neg hq, List.find?_cons_of_neg _ (by simp [hq]), ih hmem']

lemma dictLookup_insert (d : List (String × Option String)) (k k' : String)
    (v' : Option String) :
    dictLookup (dictInsert d k' v') k = if k = k' then some v' else dictLookup d k := by
  unfold dictInsert
  by_cases hmem : d.any (fun p => p.1 = k') = true
  · rw [if_pos hmem]
    by_cases hk : k = k'
    · subst hk
      unfold dictLookup
      rw [if_pos rfl, find_map_eq d k v' hmem]
      rfl
    · unfold dictLookup
      rw [find_map_ne d k k' v' hk, if_neg hk]
  · rw [if_neg hmem]
    unfold dictLookup
    rw [List.find?_append]
    by_cases hk : k = k'
    · subst hk
      have hnone : d.find? (fun p => p.1 = k) = none := by
        rw [List.find?_eq_none]
        intro x hx hpx
        exact hmem (List.any_eq_true.mpr ⟨x, hx, hpx⟩)
      rw [hnone, if_pos rfl]
      simp [List.find?]
    · have h2 : List.find? (fun p => p.1 = k) [(k', v')] = none := by
        rw [List.find?_eq_none]
        intro x hx hpx
        rcases List.mem_singleton.mp hx with rfl
        have hx' : k' = k := by simpa using hpx
        exact hk hx'.symm
      rw [h2, Option.or_none, if_neg hk]

lemma dictLookup_build_aux (vs : List Variant) :
    ∀ (d : List (String × Option String)) (k : String),
      dictLookup (vs.foldl (fun d v => dictInsert d v.key v.name) d) k =
        ((vs.reverse.find? (fun v => v.key = k)).map (fun v => v.name)).or (dictLookup d k) := by
  induction vs with
  | nil => intro d k; simp
  | cons v vs ih =>
    intro d k
    rw [List.foldl_cons, ih, List.reverse_cons, List.find?_append, dictLookup_insert]
    cases hf : vs.reverse.find? (fun v => v.key = k) with
    | some w => simp
    | none =>
      by_cases hk : k = v.key
      · rw [if_pos hk]
        have : List.find? (fun v' => v'.key = k) [v] = some v :=
          List.find?_cons_of_pos _ (by simp [hk])
        simp [this]
      · rw [if_neg hk]
        have : List.find? (fun v' => v'.key = k) [v] = none := by
          rw [List.find?_eq_none]
          intro x hx hpx
          rcases List.mem_singleton.mp hx with rfl
          have hx' : x.key = k := by simpa using hpx
          exact hk hx'.symm
        simp [this]

lemma dictInsert_length (d : List (String × Option String)) (k : String)
    (v : Option String) : (dictInsert d k v).length ≤ d.length + 1 := by
  unfold dictInsert
  split
  · simp
  · simp

lemma build_fold_length (vs : List Variant) :
    ∀ d : List (String × Option String),
      (vs.foldl (fun d v => dictInsert d v.key v.name) d).length ≤ d.length + vs.length := by
  induction vs with
  | nil => intro d; simp
  | cons v vs ih =>
    intro d
    rw [List.foldl_cons]
    have h1 := ih (dictInsert d v.key v.name)
    have h2 := dictInsert_length d v.key v.name
    simp only [List.length_cons]
    omega

/-- C9: the watchlist dict is built by insertion in file order, so a later
entry with an equal canonical key overwrites an earlier one: the lookup of
a key returns the name of the last watchlist Variant with that key.
Consequently the index never has more entries than the watchlist has
records, and it has strictly fewer when two records share a key. -/
theorem watchdict_last_wins :
    (∀ (vs : List Variant) (k : String),
        dictLookup (buildWatchDict vs) k =
          (vs.reverse.find? (fun v => v.key = k)).map (fun v => v.name)) ∧
    (∀ vs : List Variant, (buildWatchDict vs).length ≤ vs.length) ∧
    (∃ vs : List Variant, (buildWatchDict vs).length < vs.length) := by
  refine ⟨?_, ?_, ?_⟩
  · intro vs k
    rw [buildWatchDict, dictLookup_build_aux]
    simp [dictLookup]
  · intro vs
    simpa using build_fold_length vs []
  · exact ⟨[⟨"chr1", .int 100, "A", "G", some "first"⟩,
      ⟨"chr1", .int 100, "A", "G", some "second"⟩], by decide⟩

lemma findSub_isSome_iff (pat : List Char) (l : List Char) :
    (findSub pat l).isSome = true ↔ pat <:+: l := by
  induction l with
  | nil =>
    by_cases h : pat.isPrefixOf ([] : List Char)
    · simp only [findSub, if_pos h, Option.isSome_some, true_iff]
      exact (List.isPrefixOf_iff_prefix.mp h).isInfix
    · simp only [findSub, if_neg h, Option.isSome_none, List.infix_nil]
      constructor
      · intro hfalse; cases hfalse
      · intro hnil
        exact absurd (List.isPrefixOf_iff_prefix.mpr (by rw [hnil])) h
  | cons c t ih =>
    by_cases h : pat.isPrefixOf (c :: t)
    · simp only [findSub, if_pos h, Option.isSome_some, true_iff]
      exact (List.isPrefixOf_iff_prefix.mp h).isInfix
    · simp only [findSub, if_neg h]
      have hmap : (Option.map (fun x => x + 1) (findSub pat t)).isSome =
          (findSub pat t).isSome := by simp
      rw [hmap, ih, List.infix_cons_iff]
      constructor
      · intro hi; exact Or.inr hi
      · intro hor
        rcases hor with hpre | hi
        · exact absurd (List.isPrefixOf_iff_prefix.mpr hpre) h
        · exact hi

lemma pyFind_nonneg_iff (f pat : String) : 0 ≤ pyFind f pat ↔ pat.toList <:+: f.toList := by
  rw [← findSub_isSome_iff pat.toList f.toList]
  unfold pyFind
  cases hf : findSub pat.toList f.toList with
  | some n =>
    simp only [Option.isSome_some, iff_true]
    show (0 : Int) ≤ (n : Int)
    exact Int.natCast_nonneg n
  | none =>
    simp only [Option.isSome_none, Bool.false_eq_true, iff_false]
    intro hge
    exact absurd hge (by norm_num)

/-- C10: the dispatch condition `f.find("variants.tsv") >= 0` holds exactly
when "variants.tsv" occurs as a contiguous substring anywhere in the
source identifier, not only as a suffix; every other identifier goes to
the standard parser, as the concrete non-tabular example shows. -/
theorem dispatch_substring :
    (∀ f : String,
        dispatchFor f = SourceKind.ivar ↔ "variants.tsv".toList <:+: f.toList) ∧
    dispatchFor "sample.pass.vcf" = SourceKind.vcf := by
  refine ⟨?_, by decide⟩
  intro f
  unfold dispatchFor
  by_cases h : 0 ≤ pyFind f "variants.tsv"
  · rw [if_pos h]
    simp only [true_iff]
    exact (pyFind_nonneg_iff f "variants.tsv").mp h
  · rw [if_neg h]
    constructor
    · intro hfalse; cases hfalse
    · intro hi; exact absurd ((pyFind_nonneg_iff f "variants.tsv").mpr hi) h

/-- Witness for C10: an identifier where "variants.tsv" occurs strictly in
the middle (not as a suffix) is dispatched to the tabular parser. -/
theorem dispatch_substring_witness :
    dispatchFor "run1.variants.tsv.gz" = SourceKind.ivar :=
  (dispatch_substring.1 "run1.variants.tsv.gz").mpr (by decide)
